import Mathlib

/-!
# Verification of the stream-up translation pipeline (src/App.tsx)

This file gives a shallow embedding of the core logic of `src/App.tsx`:

* the VTT transcript parser `parseVTT`;
* the sentence splitter and throttled enqueue of `fetchZoomTranscript`;
* the translation / synthesis stages `translateWithGemini`, `speakWithGemini`
  and the functional drain `processQueue` over a queue snapshot;
* a small-step interleaving model of `enqueueTranslation` / `processQueue`
  with the `processingQueue` flag, used for the single-flight and
  order-preservation properties.

JavaScript string primitives (`split`, `trim`, `startsWith`, `includes`)
are embedded as structurally recursive functions over character lists so
that every definition evaluates inside the kernel.

Theorems about these definitions settle the specification claims.
-/

/-- `TranslationItem` from src/App.tsx (lines 19-22). -/
structure TranslationItem where
  source : String
  translated : String
deriving DecidableEq, Repr

/-! ## JavaScript string primitives -/

/-- Loop of `jsSplitChar`: accumulate the current field (reversed) and cut at
every occurrence of the separator character. -/
def jsSplitCharGo (sep : Char) : List Char → List Char → List String
  | [], acc => [String.mk acc.reverse]
  | c :: rest, acc =>
    if c = sep then String.mk acc.reverse :: jsSplitCharGo sep rest []
    else jsSplitCharGo sep rest (c :: acc)

/-- Models JavaScript `s.split(sep)` for a single-character separator. -/
def jsSplitChar (sep : Char) (s : String) : List String :=
  jsSplitCharGo sep s.data []

/-- Models JavaScript `s.trim()`: drop leading and trailing whitespace. -/
def jsTrim (s : String) : String :=
  String.mk (((s.data.dropWhile Char.isWhitespace).reverse.dropWhile
    Char.isWhitespace).reverse)

/-- Models JavaScript `s.startsWith(p)`. -/
def jsStartsWith (s p : String) : Bool :=
  p.data.isPrefixOf s.data

/-- Character-list substring search: does `sub` occur contiguously in the
list? -/
def containsSeq (sub : List Char) : List Char → Bool
  | [] => sub.isPrefixOf []
  | c :: rest => sub.isPrefixOf (c :: rest) || containsSeq sub rest

/-- Models JavaScript `s.includes(sub)`. -/
def jsIncludes (s sub : String) : Bool :=
  containsSeq sub.data s.data

/-! ## VTT parsing (src/App.tsx lines 302-317) -/

/-- Models the regex test `/^\d+$/.test(trim)`: the whole (non-empty) string
is made of decimal digits. -/
def vttNumeric (s : String) : Bool :=
  s ≠ "" && s.data.all Char.isDigit

/-- The filtering loop body of `parseVTT`: walk the lines, `continue` on
blank, `WEBVTT`, `NOTE`, arrow and pure-numeric lines, push the trimmed
line otherwise (src/App.tsx lines 306-315). -/
def parseVTTGo : List String → List String
  | [] => []
  | line :: rest =>
    let t := jsTrim line
    if t = "" then parseVTTGo rest
    else if jsStartsWith t "WEBVTT" then parseVTTGo rest
    else if jsStartsWith t "NOTE" then parseVTTGo rest
    else if jsIncludes t "-->" then parseVTTGo rest
    else if vttNumeric t then parseVTTGo rest
    else t :: parseVTTGo rest

/-- `parseVTT` from src/App.tsx lines 302-317: split on newlines, filter the
lines, join the kept trimmed lines with single spaces. -/
def parseVTT (vtt : String) : String :=
  String.intercalate " " (parseVTTGo (jsSplitChar '\n' vtt))

/-- Spec-side keep predicate for one trimmed line: kept iff it is not blank,
not a header (`WEBVTT`), not a note (`NOTE`), contains no arrow/range marker
and is not purely numeric. -/
def keepsLine (t : String) : Bool :=
  !(t = "") && !jsStartsWith t "WEBVTT" && !jsStartsWith t "NOTE" &&
    !jsIncludes t "-->" && !vttNumeric t

/-- The parser loop keeps exactly the trimmed lines satisfying `keepsLine`,
in order. -/
theorem parseVTTGo_eq_filter (lines : List String) :
    parseVTTGo lines = (lines.map jsTrim).filter keepsLine := by
  induction lines with
  | nil => rfl
  | cons line rest ih =>
    simp only [parseVTTGo, keepsLine, List.map_cons, List.filter_cons]
    by_cases h1 : jsTrim line = "" <;>
      by_cases h2 : jsStartsWith (jsTrim line) "WEBVTT" <;>
        by_cases h3 : jsStartsWith (jsTrim line) "NOTE" <;>
          by_cases h4 : jsIncludes (jsTrim line) "-->" <;>
            by_cases h5 : vttNumeric (jsTrim line) <;>
              simp [h1, h2, h3, h4, h5, ih]

/-- The two-cue WEBVTT example from the specification. -/
def vttExample : String :=
  "WEBVTT\nNOTE generated\n1\n00:00:00.000 --> 00:00:02.000\nHello there.\n2\n00:00:02.000 --> 00:00:04.000\nHow are you?"

/-- A cue document whose spoken lines are a bare number and a `NOTE`-leading
sentence, plus one ordinary line. -/
def vttTrapExample : String :=
  "WEBVTT\n1\n00:00:00.000 --> 00:00:01.000\n42\nNOTE everything is fine.\nIndeed."

/-- C7: parseVTT discards blank lines, header lines, note lines, pure-numeric
cue-index lines and lines containing the arrow marker, and joins the
remaining trimmed lines with single spaces; on the spec's two-cue example the
output is exactly "Hello there. How are you?". -/
theorem parseVTT_cue_document_parsing :
    (∀ vtt : String,
        parseVTT vtt =
          String.intercalate " "
            (((jsSplitChar '\n' vtt).map jsTrim).filter keepsLine)) ∧
      parseVTT vttExample = "Hello there. How are you?" := by
  constructor
  · intro vtt
    rw [parseVTT, parseVTTGo_eq_filter]
  · rfl

/-! ## Sentence splitting and throttled submission
(src/App.tsx lines 278-290, inside `fetchZoomTranscript`) -/

/-- Is the character one of the sentence terminators `.`, `!`, `?` of the
regex class `[.!?]`. -/
def isSentEnd (c : Char) : Bool :=
  c = '.' || c = '!' || c = '?'

/-- Is the head of the remaining input a whitespace character (the `\s`
lookahead of the separator regex)? -/
def headWhitespace : List Char → Bool
  | r :: _ => r.isWhitespace
  | [] => false

/-- Loop of `splitSentences`, modelling the JavaScript split on the regex
`(?<=[.!?])\s+`: when a terminator is immediately followed by whitespace the
unit is cut after the terminator and the maximal whitespace run is consumed
as the separator. `acc` holds the current unit reversed; `sep` records that
the scanner is inside a separator whitespace run. -/
def splitSentencesGo : List Char → List Char → Bool → List String
  | [], acc, _ => [String.mk acc.reverse]
  | c :: rest, acc, sep =>
    if sep && c.isWhitespace then
      splitSentencesGo rest acc true
    else if isSentEnd c && headWhitespace rest then
      String.mk (acc.reverse ++ [c]) :: splitSentencesGo rest [] true
    else
      splitSentencesGo rest (c :: acc) false

/-- Models `cleanText.split(/(?<=[.!?])\s+/)` from src/App.tsx line 279. -/
def splitSentences (s : String) : List String :=
  splitSentencesGo s.data [] false

/-- Models the enqueue loop of src/App.tsx lines 284-290: for every unit of
the split, in order, if its trim is non-empty, schedule
`enqueueTranslation(sentence.trim())` with a delay of `index * 100`
milliseconds. Returns the (delay, text) pairs in submission order. -/
def zoomEnqueues (cleanText : String) : List (Nat × String) :=
  (splitSentences cleanText).enum.filterMap fun p =>
    if jsTrim p.2 = "" then none else some (p.1 * 100, jsTrim p.2)

/-- Enqueued texts of the zoom loop: exactly the units whose trim is
non-empty, trimmed, in split order. -/
theorem zoomEnqueues_texts_aux (n : Nat) (l : List String) :
    ((l.enumFrom n).filterMap fun p =>
        if jsTrim p.2 = "" then none
        else some (p.1 * 100, jsTrim p.2)).map Prod.snd
      = (l.map jsTrim).filter fun t => t ≠ "" := by
  induction l generalizing n with
  | nil => rfl
  | cons s rest ih =>
    simp only [List.enumFrom, List.filterMap_cons, List.map_cons,
      List.filter_cons]
    by_cases h : jsTrim s = "" <;> simp [h, ih]

/-- C8: the parsed prose is split after every sentence terminator followed
by whitespace; each unit with a non-empty trim is enqueued trimmed with a
delay of 100 ms times its index in the split, and units that trim to empty
are never enqueued. Includes the spec's example and a trailing-empty-unit
example. -/
theorem zoom_sentence_split_and_throttle :
    (∀ cleanText : String,
        (zoomEnqueues cleanText).map Prod.snd
          = ((splitSentences cleanText).map jsTrim).filter fun t => t ≠ "") ∧
      (∀ cleanText : String, ∀ i : Nat, ∀ s : String,
        (splitSentences cleanText)[i]? = some s → jsTrim s ≠ "" →
          (i * 100, jsTrim s) ∈ zoomEnqueues cleanText) ∧
      splitSentences "Hello there. How are you?"
        = ["Hello there.", "How are you?"] ∧
      zoomEnqueues "Hello there. How are you?"
        = [(0, "Hello there."), (100, "How are you?")] ∧
      splitSentences "Hi! " = ["Hi!", ""] ∧
      zoomEnqueues "Hi! " = [(0, "Hi!")] := by
  refine ⟨?_, ?_, rfl, rfl, rfl, rfl⟩
  · intro cleanText
    rw [zoomEnqueues, List.enum]
    exact zoomEnqueues_texts_aux 0 (splitSentences cleanText)
  · intro cleanText i s hget htrim
    rw [zoomEnqueues]
    rw [List.mem_filterMap]
    refine ⟨(i, s), ?_, ?_⟩
    · rw [List.mk_mem_enum_iff_getElem?]
      exact hget
    · simp [htrim]

/-- Witness for the hypotheses of `zoom_sentence_split_and_throttle`: the
second unit of the spec example is enqueued at delay 100. -/
theorem zoom_sentence_split_and_throttle_witness :
    (100, "How are you?") ∈ zoomEnqueues "Hello there. How are you?" := by
  have h := zoom_sentence_split_and_throttle.2.1 "Hello there. How are you?"
    1 "How are you?" (by rfl) (by decide)
  simpa using h

/-! ## Translation and synthesis stages
(src/App.tsx lines 330-425), embedded as pure functions over an
environment describing the configured key and the network's behaviour. -/

/-- One `inlineData` payload of a synthesis response part. -/
structure InlineData where
  mimeType : String
  data : String
deriving DecidableEq, Repr

/-- One part of `response.candidates[0].content.parts`; `inlineData` may be
absent. -/
structure ResponsePart where
  inlineData : Option InlineData
deriving DecidableEq, Repr

/-- Environment for the two stages: the configured API key and the
behaviour of the two network capabilities. `translateNet text` is the fate
of `ai.models.generateContent` for the translation call: an exception
message, or a response whose `text` field may be absent. `ttsNet text` is
the fate of the synthesis call: an exception message, or the parts list
(`response.candidates?.[0]?.content?.parts`, absent when any link of the
optional chain is missing). `decode` is modelled from the spec:
`base64ToArrayBuffer` lives in `lib/utils` (not part of the core source);
the spec says each kept part is base64-decoded to raw bytes. -/
structure Env where
  apiKey : String
  translateNet : String → Except String (Option String)
  ttsNet : String → Except String (Option (List ResponsePart))
  decode : String → List Nat

/-- Outcome of one `translateWithGemini` call: the status updates it issued,
how many network calls it made, and either a thrown error or the returned
value (`none` models `null`). -/
structure TransResult where
  statusUpdates : List String
  netCalls : Nat
  result : Except String (Option String)
deriving Repr

/-- `translateWithGemini` from src/App.tsx lines 356-382: with no API key,
set the status and return `null` without calling the network; otherwise call
the service, rethrow its error, and return `response.text?.trim() || null`. -/
def translateWithGemini (env : Env) (text : String) : TransResult :=
  if env.apiKey = "" then
    { statusUpdates := ["Missing Gemini API Key"], netCalls := 0,
      result := Except.ok none }
  else
    match env.translateNet text with
    | Except.error e =>
        { statusUpdates := [], netCalls := 1, result := Except.error e }
    | Except.ok none =>
        { statusUpdates := [], netCalls := 1, result := Except.ok none }
    | Except.ok (some t) =>
        { statusUpdates := [], netCalls := 1,
          result :=
            Except.ok (if jsTrim t = "" then none else some (jsTrim t)) }

/-- Outcome of one `speakWithGemini` call: network calls made and the byte
buffers handed to the audio streamer, in order. `speakWithGemini` never
throws: its `try`/`catch` only logs. -/
structure SpeakResult where
  netCalls : Nat
  scheduled : List (List Nat)
deriving Repr

/-- The part loop of src/App.tsx lines 410-420: keep the parts that carry
`inlineData` whose `mimeType` starts with `audio`, in response order, and
hand each base64-decoded payload to the audio streamer. -/
def audioBuffers (env : Env) : List ResponsePart → List (List Nat)
  | [] => []
  | p :: rest =>
    match p.inlineData with
    | some d =>
      if jsStartsWith d.mimeType "audio" then
        env.decode d.data :: audioBuffers env rest
      else audioBuffers env rest
    | none => audioBuffers env rest

/-- `speakWithGemini` from src/App.tsx lines 386-425: return immediately
with no call when the key is empty; otherwise call the synthesis service and
feed every audio part to the streamer; all errors are caught internally. -/
def speakWithGemini (env : Env) (text : String) : SpeakResult :=
  if env.apiKey = "" then { netCalls := 0, scheduled := [] }
  else
    match env.ttsNet text with
    | Except.error _ => { netCalls := 1, scheduled := [] }
    | Except.ok none => { netCalls := 1, scheduled := [] }
    | Except.ok (some parts) =>
        { netCalls := 1, scheduled := audioBuffers env parts }

/-- Outcome of one `processQueue` drain over a queue snapshot: the
`TranslationItem`s appended, the status values set in order, the total
network calls, and the audio buffers scheduled. -/
structure DrainResult where
  translations : List TranslationItem
  statuses : List String
  netCalls : Nat
  scheduled : List (List Nat)
deriving Repr

/-- The `while` loop of `processQueue` (src/App.tsx lines 334-352) over a
snapshot of `translationQueue`: shift the head chunk, skip it when falsy,
otherwise translate, and on a produced translation append the item and
synthesize; a thrown error is caught at the chunk boundary and sets an
`Error:` status; finally the `Idle` status is set. -/
def processQueue (env : Env) : List String → DrainResult
  | [] =>
      { translations := [], statuses := ["Idle"], netCalls := 0,
        scheduled := [] }
  | chunk :: rest =>
    let restR := processQueue env rest
    if chunk = "" then restR
    else
      let tr := translateWithGemini env chunk
      match tr.result with
      | Except.error e =>
          { translations := restR.translations,
            statuses :=
              "Translating..." :: tr.statusUpdates ++
                ("Error: " ++ e) :: restR.statuses,
            netCalls := tr.netCalls + restR.netCalls,
            scheduled := restR.scheduled }
      | Except.ok none =>
          { translations := restR.translations,
            statuses :=
              "Translating..." :: tr.statusUpdates ++ restR.statuses,
            netCalls := tr.netCalls + restR.netCalls,
            scheduled := restR.scheduled }
      | Except.ok (some t) =>
          let sp := speakWithGemini env t
          { translations :=
              { source := chunk, translated := t } :: restR.translations,
            statuses :=
              "Translating..." :: tr.statusUpdates ++
                "Speaking..." :: restR.statuses,
            netCalls := tr.netCalls + sp.netCalls + restR.netCalls,
            scheduled := sp.scheduled ++ restR.scheduled }

/-- C4: while the API key is empty, `translateWithGemini` makes no network
call, issues the configuration-error status and returns `null` without
throwing, and `processQueue` appends no item, schedules nothing, makes no
network call for any queue, and ends with the `Idle` status. -/
theorem missing_credential_path (env : Env) (hk : env.apiKey = "") :
    (∀ text : String,
        translateWithGemini env text =
          { statusUpdates := ["Missing Gemini API Key"], netCalls := 0,
            result := Except.ok none }) ∧
      ∀ queue : List String,
        (processQueue env queue).netCalls = 0 ∧
          (processQueue env queue).translations = [] ∧
          (processQueue env queue).scheduled = [] ∧
          (∃ l, (processQueue env queue).statuses = l ++ ["Idle"]) ∧
          ∀ chunk ∈ queue, chunk ≠ "" →
            "Missing Gemini API Key" ∈ (processQueue env queue).statuses := by
  have htr : ∀ text : String,
      translateWithGemini env text =
        { statusUpdates := ["Missing Gemini API Key"], netCalls := 0,
          result := Except.ok none } := by
    intro text
    simp [translateWithGemini, hk]
  refine ⟨htr, ?_⟩
  intro queue
  induction queue with
  | nil => exact ⟨rfl, rfl, rfl, ⟨[], rfl⟩, by simp⟩
  | cons chunk rest ih =>
    obtain ⟨ih1, ih2, ih3, ⟨l, ih4⟩, ih5⟩ := ih
    by_cases hc : chunk = ""
    · refine ⟨?_, ?_, ?_, ?_, ?_⟩ <;>
        simp only [processQueue, hc, if_pos rfl]
      · exact ih1
      · exact ih2
      · exact ih3
      · exact ⟨l, ih4⟩
      · intro c hmem hcne
        rcases List.mem_cons.mp hmem with h | h
        · simp [h] at hcne
        · exact ih5 c h hcne
    · refine ⟨?_, ?_, ?_, ?_, ?_⟩ <;>
        simp only [processQueue, if_neg hc, htr chunk]
      · simpa using ih1
      · exact ih2
      · exact ih3
      · exact ⟨"Translating..." :: "Missing Gemini API Key" :: l,
          by simp [ih4]⟩
      · intro c hmem hcne
        simp
  
/-- Environment with no API key configured (all network behaviour inert). -/
def envNoKey : Env :=
  { apiKey := "", translateNet := fun _ => Except.ok none,
    ttsNet := fun _ => Except.ok none, decode := fun _ => [] }

/-- Witness for `missing_credential_path` at the spec's concrete input:
enqueueing "hello" with no credential yields zero network calls, the
configuration status, no translation and no audio. -/
theorem missing_credential_path_witness :
    (processQueue envNoKey ["hello"]).netCalls = 0 ∧
      (processQueue envNoKey ["hello"]).translations = [] ∧
      (processQueue envNoKey ["hello"]).scheduled = [] ∧
      "Missing Gemini API Key" ∈ (processQueue envNoKey ["hello"]).statuses := by
  obtain ⟨-, h⟩ := missing_credential_path envNoKey rfl
  obtain ⟨h1, h2, h3, -, h5⟩ := h ["hello"]
  exact ⟨h1, h2, h3, h5 "hello" (by simp) (by decide)⟩

/-- C9: a translation response whose text is absent, or empty after
trimming, makes `translateWithGemini` return `null`; `processQueue` then
appends no item, schedules no audio, and performs no synthesis call for
that segment. -/
theorem empty_translation_terminal_state :
    (∀ (env : Env) (text : String),
        env.translateNet text = Except.ok none →
          (translateWithGemini env text).result = Except.ok none) ∧
      (∀ (env : Env) (text t : String),
        env.translateNet text = Except.ok (some t) → jsTrim t = "" →
          (translateWithGemini env text).result = Except.ok none) ∧
      ∀ (env : Env) (chunk : String) (rest : List String),
        chunk ≠ "" →
        (translateWithGemini env chunk).result = Except.ok none →
          (processQueue env (chunk :: rest)).translations
              = (processQueue env rest).translations ∧
            (processQueue env (chunk :: rest)).scheduled
              = (processQueue env rest).scheduled ∧
            (processQueue env (chunk :: rest)).netCalls
              = (translateWithGemini env chunk).netCalls
                  + (processQueue env rest).netCalls := by
  refine ⟨?_, ?_, ?_⟩
  · intro env text h
    by_cases hk : env.apiKey = "" <;> simp [translateWithGemini, hk, h]
  · intro env text t h htrim
    by_cases hk : env.apiKey = "" <;> simp [translateWithGemini, hk, h, htrim]
  · intro env chunk rest hc hres
    simp [processQueue, if_neg hc, hres]

/-- Environment whose translation service answers with whitespace-only
text. -/
def envBlankTranslation : Env :=
  { apiKey := "key", translateNet := fun _ => Except.ok (some "   "),
    ttsNet := fun _ => Except.ok none, decode := fun _ => [] }

/-- Witness for `empty_translation_terminal_state`: a whitespace-only
service response yields `null`, and the segment produces no item, no audio
and only the one translation network call. -/
theorem empty_translation_terminal_state_witness :
    (translateWithGemini envBlankTranslation "hello").result = Except.ok none
      ∧ (processQueue envBlankTranslation ["hello"]).translations = []
      ∧ (processQueue envBlankTranslation ["hello"]).scheduled = []
      ∧ (processQueue envBlankTranslation ["hello"]).netCalls = 1 := by
  have h2 := empty_translation_terminal_state.2.1 envBlankTranslation
    "hello" "   " rfl (by decide)
  have h3 := empty_translation_terminal_state.2.2 envBlankTranslation
    "hello" [] (by decide) h2
  refine ⟨h2, h3.1, h3.2.1, ?_⟩
  rw [h3.2.2]
  rfl

/-- Does the part carry inline data whose media type starts with the audio
prefix? -/
def isAudioPart (p : ResponsePart) : Bool :=
  match p.inlineData with
  | some d => jsStartsWith d.mimeType "audio"
  | none => false

/-- The base64 payload of a part (empty when no inline data). -/
def partData (p : ResponsePart) : String :=
  match p.inlineData with
  | some d => d.data
  | none => ""

/-- C6: the part loop keeps exactly the parts whose media type starts with
the audio prefix, in response order, hands each base64-decoded payload to
the scheduler, and a response with zero audio parts schedules nothing and
raises no error. -/
theorem synthesis_part_filtering :
    (∀ (env : Env) (parts : List ResponsePart),
        audioBuffers env parts
          = (parts.filter isAudioPart).map fun p => env.decode (partData p)) ∧
      (∀ (env : Env) (text : String) (parts : List ResponsePart),
        env.apiKey ≠ "" → env.ttsNet text = Except.ok (some parts) →
          (speakWithGemini env text).scheduled
            = (parts.filter isAudioPart).map fun p => env.decode (partData p)) ∧
      ∀ (env : Env) (text : String) (parts : List ResponsePart),
        env.apiKey ≠ "" → env.ttsNet text = Except.ok (some parts) →
        (∀ p ∈ parts, isAudioPart p = false) →
          (speakWithGemini env text).scheduled = [] := by
  have hbuf : ∀ (env : Env) (parts : List ResponsePart),
      audioBuffers env parts
        = (parts.filter isAudioPart).map fun p => env.decode (partData p) := by
    intro env parts
    induction parts with
    | nil => rfl
    | cons p rest ih =>
      obtain ⟨od⟩ := p
      cases od with
      | none => simp [audioBuffers, isAudioPart, partData, ih]
      | some d =>
        by_cases ha : jsStartsWith d.mimeType "audio" <;>
          simp [audioBuffers, isAudioPart, partData, ha, ih]
  have hspeak : ∀ (env : Env) (text : String) (parts : List ResponsePart),
      env.apiKey ≠ "" → env.ttsNet text = Except.ok (some parts) →
        (speakWithGemini env text).scheduled
          = (parts.filter isAudioPart).map fun p => env.decode (partData p) := by
    intro env text parts hk hnet
    simp [speakWithGemini, hk, hnet, hbuf]
  refine ⟨hbuf, hspeak, ?_⟩
  intro env text parts hk hnet hnone
  rw [hspeak env text parts hk hnet]
  rw [List.filter_eq_nil_iff.mpr ?_]
  · rfl
  · intro p hp
    simp [hnone p hp]

/-- A synthesis response with one audio part, one non-audio part and one
part without inline data. -/
def mixedParts : List ResponsePart :=
  [{ inlineData := some { mimeType := "audio/pcm", data := "QUJD" } },
   { inlineData := some { mimeType := "text/plain", data := "eHl6" } },
   { inlineData := none }]

/-- Environment whose synthesis service returns `mixedParts`. -/
def envMixed : Env :=
  { apiKey := "key", translateNet := fun _ => Except.ok none,
    ttsNet := fun _ => Except.ok (some mixedParts),
    decode := fun s => s.data.map Char.toNat }

/-- Witness for `synthesis_part_filtering`: only the single audio part of
`mixedParts` is decoded and handed over. -/
theorem synthesis_part_filtering_witness :
    (speakWithGemini envMixed "hola").scheduled
      = [[(81 : Nat), 85, 74, 68]] := by
  have h := synthesis_part_filtering.2.1 envMixed "hola" mixedParts
    (by decide) rfl
  rw [h]
  rfl

/-- Environment in which translation succeeds on both segments but the
synthesis transport fails (throws "boom") on the first translation. -/
def envSynthFail : Env :=
  { apiKey := "key",
    translateNet := fun s =>
      if s = "a" then Except.ok (some "ta") else Except.ok (some "tb"),
    ttsNet := fun t =>
      if t = "ta" then Except.error "boom" else Except.ok none,
    decode := fun _ => [] }

/-- C5 counterexample: a transport error raised while synthesizing the
first segment is caught inside `speakWithGemini` itself, not at the segment
boundary of the drain loop — the drain's status trace contains no failure
status at all, even though the error occurred; the loop does continue. -/
theorem synthesis_error_no_status_counterexample :
    envSynthFail.ttsNet "ta" = Except.error "boom" ∧
      (processQueue envSynthFail ["a", "b"]).translations
        = [{ source := "a", translated := "ta" },
           { source := "b", translated := "tb" }] ∧
      (processQueue envSynthFail ["a", "b"]).statuses
        = ["Translating...", "Speaking...", "Translating...", "Speaking...",
           "Idle"] ∧
      ((processQueue envSynthFail ["a", "b"]).statuses.all fun st =>
        !jsStartsWith st "Error:") = true ∧
      ((processQueue envSynthFail ["a", "b"]).statuses.all fun st =>
        !jsIncludes st "boom") = true := by
  refine ⟨rfl, rfl, rfl, rfl, rfl⟩

/-- C5 amended: an error thrown while translating segment k is caught at
the segment boundary of the drain loop, sets the `Error:` status with the
failure detail, and later segments are processed exactly as they would be
alone; an error thrown while synthesizing segment k is caught inside the
synthesis stage itself, sets no status, and later segments are likewise
unaffected. -/
theorem segment_failure_isolation (env : Env) (chunk : String)
    (rest : List String) (hc : chunk ≠ "") (hk : env.apiKey ≠ "") :
    (∀ e : String, env.translateNet chunk = Except.error e →
        (processQueue env (chunk :: rest)).translations
            = (processQueue env rest).translations ∧
          (processQueue env (chunk :: rest)).statuses
            = "Translating..." :: ("Error: " ++ e)
                :: (processQueue env rest).statuses ∧
          (processQueue env (chunk :: rest)).scheduled
            = (processQueue env rest).scheduled) ∧
      ∀ t e : String,
        env.translateNet chunk = Except.ok (some t) → jsTrim t ≠ "" →
        env.ttsNet (jsTrim t) = Except.error e →
          (processQueue env (chunk :: rest)).translations
              = { source := chunk, translated := jsTrim t }
                  :: (processQueue env rest).translations ∧
            (processQueue env (chunk :: rest)).statuses
              = "Translating..." :: "Speaking..."
                  :: (processQueue env rest).statuses ∧
            (processQueue env (chunk :: rest)).scheduled
              = (processQueue env rest).scheduled := by
  constructor
  · intro e hnet
    simp [processQueue, translateWithGemini, if_neg hc, hk, hnet]
  · intro t e hnet htrim htts
    simp [processQueue, translateWithGemini, speakWithGemini, if_neg hc,
      hk, hnet, htrim, htts]

/-- Witness for `segment_failure_isolation` on `envSynthFail`: the
synthesis failure on the first segment leaves the second segment's
processing untouched. -/
theorem segment_failure_isolation_witness :
    (processQueue envSynthFail ["a", "b"]).translations
        = { source := "a", translated := "ta" }
            :: (processQueue envSynthFail ["b"]).translations ∧
      (processQueue envSynthFail ["a", "b"]).statuses
        = "Translating..." :: "Speaking..."
            :: (processQueue envSynthFail ["b"]).statuses := by
  have h := (segment_failure_isolation envSynthFail "a" ["b"]
    (by decide) (by decide)).2 "ta" "boom" rfl (by decide) rfl
  exact ⟨h.1, h.2.1⟩

/-! ## Interleaving model of the queue
(src/App.tsx lines 322-354). `enqueueTranslation` and the `processQueue`
drain loop run on one JavaScript event loop: code between two `await`
points executes atomically, and the environment may interleave further
`enqueueTranslation` calls at every suspension. Each atomic section is one
transition; a drain-loop instance is a `DrainTask` recording the `await` point
at which that instance is suspended. `tasks` is a multiset of live drain
instances so that the single-flight property can be proved rather than
assumed. -/

/-- Suspension point of one live `processQueue` instance: about to test the
loop condition, suspended in `await translateWithGemini(chunk)`, or
suspended in `await speakWithGemini(translated)`. -/
inductive DrainTask where
  | loopHead : DrainTask
  | awaitTranslate : String → DrainTask
  | awaitSpeak : String → String → DrainTask
deriving DecidableEq, Repr

/-- How a `translateWithGemini chunk` awaited by the drain loop settles:
with a produced translation, with `null`, or by throwing. -/
inductive TransOutcome where
  | success : String → TransOutcome
  | nullResult : TransOutcome
  | failure : String → TransOutcome
deriving DecidableEq, Repr

/-- Returns true iff the outcome carries a produced translation. -/
def TransOutcome.isSuccess : TransOutcome → Bool
  | success _ => true
  | _ => false

/-- State of the queue machinery: the `translationQueue` array, the
`processingQueue` flag, the live drain-loop instances, the `translations`
list and the last `status` value — plus two history variables that record
what was pushed (`history`) and which chunks have had their translation
stage settle (`settled`); they instrument the run and influence nothing. -/
structure Cfg where
  queue : List String
  processing : Bool
  tasks : List DrainTask
  translations : List TranslationItem
  status : String
  history : List String
  settled : List String
deriving DecidableEq, Repr

/-- The initial state: empty queue, flag down, no drain instance. -/
def initCfg : Cfg :=
  { queue := [], processing := false, tasks := [], translations := [],
    status := "Ready", history := [], settled := [] }

/-- The synchronous prologue of `processQueue` (src/App.tsx lines 331-332):
return at once when the flag is up, otherwise raise the flag and enter the
loop as a new live instance. -/
def processQueueStart (s : Cfg) : Cfg :=
  if s.processing then s
  else { s with processing := true, tasks := s.tasks ++ [DrainTask.loopHead] }

/-- `enqueueTranslation` from src/App.tsx lines 322-328: no-op on falsy
(empty) text, otherwise push the text and start `processQueue` when the
flag is down. The whole call is synchronous, hence one transition. -/
def enqueueTranslation (text : String) (s : Cfg) : Cfg :=
  if text = "" then s
  else
    let s1 := { s with queue := s.queue ++ [text],
                       history := s.history ++ [text] }
    if s1.processing then s1 else processQueueStart s1

/-- One execution of the drain loop's head test by instance `i`
(src/App.tsx lines 334-338 and 352-353): with an empty queue set `Idle`,
lower the flag and finish; otherwise shift the head chunk, skip it when
falsy, else set `Translating...` and suspend in the translation await. -/
def loopStep (s : Cfg) (i : Nat) : Cfg :=
  match s.queue with
  | [] =>
      { s with status := "Idle", processing := false,
               tasks := s.tasks.eraseIdx i }
  | chunk :: rest =>
      if chunk = "" then
        { s with queue := rest, settled := s.settled ++ [chunk] }
      else
        { s with queue := rest, status := "Translating...",
                 tasks := s.tasks.set i (DrainTask.awaitTranslate chunk) }

/-- The translation await of instance `i` settles (src/App.tsx lines
339-348): on a produced translation append the item, set `Speaking...` and
suspend in the synthesis await; on `null` skip to the loop head; on a
thrown error set the `Error:` status and skip to the loop head. -/
def resolveTranslate (oracle : String → TransOutcome) (s : Cfg) (i : Nat)
    (chunk : String) : Cfg :=
  match oracle chunk with
  | TransOutcome.success t =>
      { s with translations := s.translations
                 ++ [{ source := chunk, translated := t }],
               status := "Speaking...",
               tasks := s.tasks.set i (DrainTask.awaitSpeak chunk t),
               settled := s.settled ++ [chunk] }
  | TransOutcome.nullResult =>
      { s with tasks := s.tasks.set i DrainTask.loopHead,
               settled := s.settled ++ [chunk] }
  | TransOutcome.failure e =>
      { s with status := "Error: " ++ e,
               tasks := s.tasks.set i DrainTask.loopHead,
               settled := s.settled ++ [chunk] }

/-- One interleaving transition: an environment `enqueueTranslation` call,
or the settling of the await at which some live drain instance is
suspended (`speakWithGemini` never throws, so its await settles
uniformly). -/
inductive Step (oracle : String → TransOutcome) : Cfg → Cfg → Prop where
  | enq (s : Cfg) (text : String) :
      Step oracle s (enqueueTranslation text s)
  | drain (s : Cfg) (i : Nat) (h : s.tasks[i]? = some DrainTask.loopHead) :
      Step oracle s (loopStep s i)
  | translated (s : Cfg) (i : Nat) (chunk : String)
      (h : s.tasks[i]? = some (DrainTask.awaitTranslate chunk)) :
      Step oracle s (resolveTranslate oracle s i chunk)
  | spoken (s : Cfg) (i : Nat) (chunk t : String)
      (h : s.tasks[i]? = some (DrainTask.awaitSpeak chunk t)) :
      Step oracle s { s with tasks := s.tasks.set i DrainTask.loopHead }

/-- Reachability from the initial state under a fixed service behaviour. -/
def Reach (oracle : String → TransOutcome) (s : Cfg) : Prop :=
  Relation.ReflTransGen (Step oracle) initCfg s

/-- The chunk a drain instance holds between the shift and the settling of
its translation await. -/
def taskPending : DrainTask → List String
  | DrainTask.loopHead => []
  | DrainTask.awaitTranslate chunk => [chunk]
  | DrainTask.awaitSpeak _ _ => []

/-- Chunks currently shifted but not yet past the translation stage. -/
def pendingChunks (tasks : List DrainTask) : List String :=
  tasks.flatMap taskPending

/-- The items the drain appends for a settled chunk sequence: one item per
chunk on which the oracle succeeds, in order (falsy chunks are skipped
before the stage runs). -/
def drainSpec (oracle : String → TransOutcome) (l : List String) :
    List TranslationItem :=
  l.filterMap fun chunk =>
    if chunk = "" then none
    else
      match oracle chunk with
      | TransOutcome.success t => some { source := chunk, translated := t }
      | _ => none

/-- A chunk held in a stage await is never the falsy chunk. -/
def taskChunksNonempty (task : DrainTask) : Prop :=
  match task with
  | DrainTask.loopHead => True
  | DrainTask.awaitTranslate chunk => chunk ≠ ""
  | DrainTask.awaitSpeak chunk _ => chunk ≠ ""

/-- The inductive invariant of the queue machinery: (1) at most one live
drain instance; (2) the `processingQueue` flag is up exactly while an
instance is live; (3) every pushed text is settled, pending in a stage or
still queued, in push order; (4) the appended items are exactly the
oracle's successes among the settled chunks, in order; (5) chunks inside
stages are non-falsy; (6) pushed texts are non-falsy. -/
def QueueInv (oracle : String → TransOutcome) (s : Cfg) : Prop :=
  s.tasks.length ≤ 1 ∧
    (s.processing = true ↔ s.tasks ≠ []) ∧
    s.history = s.settled ++ pendingChunks s.tasks ++ s.queue ∧
    s.translations = drainSpec oracle s.settled ∧
    (∀ task ∈ s.tasks, taskChunksNonempty task) ∧
    ∀ c ∈ s.history, c ≠ ""

/-- A live-instance list of length at most one that holds instance `x` at
position `i` is exactly `[x]` at position `0`. -/
theorem tasks_eq_singleton {l : List DrainTask} {i : Nat} {x : DrainTask}
    (hlen : l.length ≤ 1) (h : l[i]? = some x) : l = [x] ∧ i = 0 := by
  match l, i with
  | [], i => simp at h
  | [a], 0 =>
    simp at h
    exact ⟨by rw [h], rfl⟩
  | [a], j + 1 => simp at h
  | a :: b :: l, i =>
    simp [List.length_cons] at hlen

/-- `drainSpec` distributes over a settled snoc. -/
theorem drainSpec_snoc (oracle : String → TransOutcome) (l : List String)
    (chunk : String) :
    drainSpec oracle (l ++ [chunk])
      = drainSpec oracle l ++ drainSpec oracle [chunk] := by
  simp [drainSpec]

/-- Every transition preserves the queue invariant. -/
theorem step_preserves_inv (oracle : String → TransOutcome) {s s' : Cfg}
    (hstep : Step oracle s s') (hinv : QueueInv oracle s) :
    QueueInv oracle s' := by
  obtain ⟨h1, h2, h3, h4, h5, h6⟩ := hinv
  cases hstep with
  | enq text =>
    by_cases ht : text = ""
    · simpa [enqueueTranslation, ht] using ⟨h1, h2, h3, h4, h5, h6⟩
    · have hmem : ∀ c ∈ s.history ++ [text], c ≠ "" := by
        intro c hc
        rcases List.mem_append.mp hc with h | h
        · exact h6 c h
        · rw [List.mem_singleton.mp h]
          exact ht
      by_cases hp : s.processing = true
      · have hs' : enqueueTranslation text s =
            { s with queue := s.queue ++ [text],
                     history := s.history ++ [text] } := by
          simp [enqueueTranslation, ht, hp]
        rw [hs']
        refine ⟨h1, h2, ?_, h4, h5, hmem⟩
        rw [h3]
        simp
      · have htasks : s.tasks = [] := by
          by_contra hne
          exact hp (h2.mpr hne)
        have hs' : enqueueTranslation text s =
            { s with queue := s.queue ++ [text],
                     history := s.history ++ [text],
                     processing := true,
                     tasks := s.tasks ++ [DrainTask.loopHead] } := by
          simp [enqueueTranslation, ht, processQueueStart, hp]
        rw [hs']
        refine ⟨?_, ?_, ?_, h4, ?_, hmem⟩
        · simp [htasks]
        · simp [htasks]
        · rw [h3]
          simp [htasks, pendingChunks, taskPending]
        · intro task htask
          rcases List.mem_append.mp htask with h | h
          · exact h5 task h
          · rw [List.mem_singleton.mp h]
            trivial
  | drain i h =>
    obtain ⟨hl, hi⟩ := tasks_eq_singleton h1 h
    match hq : s.queue with
    | [] =>
      have hs' : loopStep s i =
          { s with status := "Idle", processing := false, tasks := [] } := by
        simp [loopStep, hq, hl, hi]
      rw [hs']
      refine ⟨by simp, by simp, ?_, h4, by simp, h6⟩
      rw [h3, hq, hl]
      simp [pendingChunks, taskPending]
    | chunk :: rest =>
      have hchunk : chunk ≠ "" := by
        apply h6
        rw [h3, hq]
        simp
      have hs' : loopStep s i =
          { s with queue := rest, status := "Translating...",
                   tasks := [DrainTask.awaitTranslate chunk] } := by
        simp [loopStep, hq, hl, hi, hchunk]
      rw [hs']
      refine ⟨by simp, ?_, ?_, h4, ?_, h6⟩
      · exact iff_of_true (h2.mpr (by simp [hl])) (by simp)
      · rw [h3, hq, hl]
        simp [pendingChunks, taskPending]
      · intro task htask
        rw [List.mem_singleton.mp htask]
        exact hchunk
  | translated i chunk h =>
    obtain ⟨hl, hi⟩ := tasks_eq_singleton h1 h
    have hchunk : chunk ≠ "" := by
      have := h5 (DrainTask.awaitTranslate chunk) (by simp [hl])
      simpa [taskChunksNonempty] using this
    have hp : s.processing = true := h2.mpr (by simp [hl])
    match ho : oracle chunk with
    | TransOutcome.success t =>
      have hs' : resolveTranslate oracle s i chunk =
          { s with translations := s.translations
                     ++ [{ source := chunk, translated := t }],
                   status := "Speaking...",
                   tasks := [DrainTask.awaitSpeak chunk t],
                   settled := s.settled ++ [chunk] } := by
        simp [resolveTranslate, ho, hl, hi]
      rw [hs']
      refine ⟨by simp, iff_of_true hp (by simp), ?_, ?_, ?_, h6⟩
      · rw [h3, hl]
        simp [pendingChunks, taskPending]
      · rw [drainSpec_snoc, ← h4]
        simp [drainSpec, hchunk, ho]
      · intro task htask
        rw [List.mem_singleton.mp htask]
        exact hchunk
    | TransOutcome.nullResult =>
      have hs' : resolveTranslate oracle s i chunk =
          { s with tasks := [DrainTask.loopHead],
                   settled := s.settled ++ [chunk] } := by
        simp [resolveTranslate, ho, hl, hi]
      rw [hs']
      refine ⟨by simp, iff_of_true hp (by simp), ?_, ?_, by simp [taskChunksNonempty], h6⟩
      · rw [h3, hl]
        simp [pendingChunks, taskPending]
      · rw [drainSpec_snoc, ← h4]
        simp [drainSpec, hchunk, ho]
    | TransOutcome.failure e =>
      have hs' : resolveTranslate oracle s i chunk =
          { s with status := "Error: " ++ e,
                   tasks := [DrainTask.loopHead],
                   settled := s.settled ++ [chunk] } := by
        simp [resolveTranslate, ho, hl, hi]
      rw [hs']
      refine ⟨by simp, iff_of_true hp (by simp), ?_, ?_, by simp [taskChunksNonempty], h6⟩
      · rw [h3, hl]
        simp [pendingChunks, taskPending]
      · rw [drainSpec_snoc, ← h4]
        simp [drainSpec, hchunk, ho]
  | spoken i chunk t h =>
    obtain ⟨hl, hi⟩ := tasks_eq_singleton h1 h
    have hp : s.processing = true := h2.mpr (by simp [hl])
    have hs' : ({ s with tasks := s.tasks.set i DrainTask.loopHead } : Cfg) =
        { s with tasks := [DrainTask.loopHead] } := by
      simp [hl, hi]
    rw [hs']
    refine ⟨by simp, iff_of_true hp (by simp),
      ?_, h4, by simp [taskChunksNonempty], h6⟩
    rw [h3, hl]
    simp [pendingChunks, taskPending]

/-- The initial state satisfies the invariant. -/
theorem initCfg_inv (oracle : String → TransOutcome) :
    QueueInv oracle initCfg := by
  refine ⟨?_, ?_, ?_, ?_, ?_, ?_⟩ <;>
    simp [initCfg, pendingChunks, drainSpec]

/-- Every reachable state satisfies the invariant. -/
theorem reach_inv (oracle : String → TransOutcome) {s : Cfg}
    (h : Reach oracle s) : QueueInv oracle s := by
  induction h with
  | refl => exact initCfg_inv oracle
  | tail hr hstep ih => exact step_preserves_inv oracle hstep ih

/-- Is the drain instance currently inside a stage invocation (suspended in
a translation or synthesis await)? -/
def isStageTask : DrainTask → Bool
  | DrainTask.loopHead => false
  | DrainTask.awaitTranslate _ => true
  | DrainTask.awaitSpeak _ _ => true

/-- The instrumented counter of concurrently-active stage invocations. -/
def activeStages (s : Cfg) : Nat :=
  (s.tasks.filter isStageTask).length

/-- C2: in every reachable state, under any interleaving of enqueues and
stage completions, at most one drain-loop instance is live, the
`processingQueue` flag is up exactly while one is, and the count of
concurrently-active stage invocations never exceeds 1; moreover the flag is
only ever cleared by a transition that observed an empty buffer. -/
theorem single_flight_invariant (oracle : String → TransOutcome) :
    (∀ s : Cfg, Reach oracle s →
        s.tasks.length ≤ 1 ∧ (s.processing = true ↔ s.tasks ≠ []) ∧
          activeStages s ≤ 1) ∧
      ∀ s s' : Cfg, Step oracle s s' →
        s.processing = true → s'.processing = false → s'.queue = [] := by
  constructor
  · intro s hreach
    obtain ⟨h1, h2, -, -, -, -⟩ := reach_inv oracle hreach
    refine ⟨h1, h2, ?_⟩
    calc (s.tasks.filter isStageTask).length ≤ s.tasks.length :=
          List.length_filter_le isStageTask s.tasks
      _ ≤ 1 := h1
  · intro s s' hstep hup hdown
    cases hstep with
    | enq text =>
      exfalso
      by_cases ht : text = "" <;>
        simp [enqueueTranslation, processQueueStart, ht, hup] at hdown
    | drain i h =>
      cases hq : s.queue with
      | nil => simp [loopStep, hq]
      | cons chunk rest =>
        exfalso
        by_cases hc : chunk = "" <;>
          simp [loopStep, hq, hc, hup] at hdown
    | translated i chunk h =>
      exfalso
      cases ho : oracle chunk <;>
        simp [resolveTranslate, ho, hup] at hdown
    | spoken i chunk t h =>
      exfalso
      simp [hup] at hdown

/-- A state with the flag up, one drain instance at the loop head and an
empty buffer (the step out of it clears the flag). -/
def cfgDrained : Cfg :=
  { queue := [], processing := true, tasks := [DrainTask.loopHead],
    translations := [], status := "Translating...", history := [],
    settled := [] }

/-- Witness for `single_flight_invariant`: the bounds hold at the initial
state, and the flag-clearing transition out of `cfgDrained` indeed observed
an empty buffer. -/
theorem single_flight_invariant_witness :
    activeStages initCfg ≤ 1 ∧ (loopStep cfgDrained 0).queue = [] := by
  constructor
  · exact ((single_flight_invariant fun _ => TransOutcome.nullResult).1
      initCfg Relation.ReflTransGen.refl).2.2
  · exact (single_flight_invariant fun _ => TransOutcome.nullResult).2
      cfgDrained (loopStep cfgDrained 0) (Step.drain cfgDrained 0 rfl)
      rfl rfl

/-- The items the drain appends have as sources exactly the settled chunks
that are non-falsy and on which the oracle succeeds, in settled order. -/
theorem drainSpec_map_source (oracle : String → TransOutcome)
    (l : List String) :
    (drainSpec oracle l).map TranslationItem.source
      = l.filter fun c => !(c = "") && (oracle c).isSuccess := by
  induction l with
  | nil => rfl
  | cons c rest ih =>
    by_cases hc : c = ""
    · simp [drainSpec, List.filterMap_cons, hc, List.filter_cons]
      rw [← drainSpec]
      exact ih
    · cases ho : oracle c <;>
        simp [drainSpec, List.filterMap_cons, hc, ho, List.filter_cons,
          TransOutcome.isSuccess] <;>
        (rw [← drainSpec]; exact ih)

/-- C1: in any reachable quiescent state (drain finished, buffer empty),
the sources of the appended `TranslationItem`s are exactly the enqueued
texts on which translation succeeded, in enqueue order — and when the
service succeeds on every text, they are exactly the enqueue order,
regardless of how the stage awaits interleaved with enqueues. -/
theorem order_preservation (oracle : String → TransOutcome) (s : Cfg)
    (hreach : Reach oracle s) (hq : s.queue = []) (ht : s.tasks = []) :
    s.translations.map TranslationItem.source
        = s.history.filter (fun c => (oracle c).isSuccess) ∧
      ((∀ c : String, (oracle c).isSuccess = true) →
        s.translations.map TranslationItem.source = s.history) := by
  obtain ⟨-, -, h3, h4, -, h6⟩ := reach_inv oracle hreach
  have hhist : s.history = s.settled := by
    rw [h3, ht, hq]
    simp [pendingChunks]
  have hmap : s.translations.map TranslationItem.source
      = s.history.filter fun c => (oracle c).isSuccess := by
    rw [h4, drainSpec_map_source, ← hhist]
    apply List.filter_congr
    intro c hc
    simp [h6 c hc]
  refine ⟨hmap, ?_⟩
  intro hall
  rw [hmap]
  apply List.filter_eq_self.mpr
  intro c hc
  simp [hall c]

/-- The translation service behaviour used by the order-preservation
witness trace: every text succeeds, translated by prefixing `T`. -/
def oracleW : String → TransOutcome :=
  fun c => TransOutcome.success ("T" ++ c)

/-- Witness trace, step 1: enqueue `"hi"` into the initial state. -/
def cfgTrace1 : Cfg := enqueueTranslation "hi" initCfg

/-- Witness trace, step 2: the spawned drain instance shifts `"hi"`. -/
def cfgTrace2 : Cfg := loopStep cfgTrace1 0

/-- Witness trace, step 3: the translation await settles successfully. -/
def cfgTrace3 : Cfg := resolveTranslate oracleW cfgTrace2 0 "hi"

/-- Witness trace, step 4: the synthesis await settles. -/
def cfgTrace4 : Cfg := { cfgTrace3 with tasks := [DrainTask.loopHead] }

/-- Witness trace, step 5: the drain sees the empty buffer and exits. -/
def cfgTrace5 : Cfg := loopStep cfgTrace4 0

/-- Witness for `order_preservation`: after a full concrete run the
produced sources equal the enqueue order `["hi"]`. -/
theorem order_preservation_witness :
    cfgTrace5.translations.map TranslationItem.source = cfgTrace5.history ∧
      cfgTrace5.history = ["hi"] := by
  have st1 : Step oracleW initCfg cfgTrace1 := Step.enq initCfg "hi"
  have st2 : Step oracleW cfgTrace1 cfgTrace2 := Step.drain cfgTrace1 0 rfl
  have st3 : Step oracleW cfgTrace2 cfgTrace3 :=
    Step.translated cfgTrace2 0 "hi" rfl
  have st4 : Step oracleW cfgTrace3 cfgTrace4 :=
    Step.spoken cfgTrace3 0 "hi" "Thi" rfl
  have st5 : Step oracleW cfgTrace4 cfgTrace5 := Step.drain cfgTrace4 0 rfl
  have hreach : Reach oracleW cfgTrace5 :=
    Relation.ReflTransGen.tail (Relation.ReflTransGen.tail
      (Relation.ReflTransGen.tail (Relation.ReflTransGen.tail
        (Relation.ReflTransGen.single st1) st2) st3) st4) st5
  refine ⟨(order_preservation oracleW cfgTrace5 hreach rfl rfl).2
    (fun c => rfl), rfl⟩

/-- C3 counterexample: `enqueueTranslation` guards only against the falsy
empty string, so the whitespace-only text `" "` is not a no-op — it is
pushed onto the queue and even starts a drain instance. -/
theorem enqueue_whitespace_counterexample :
    (enqueueTranslation " " initCfg).queue = [" "] ∧
      (enqueueTranslation " " initCfg).tasks = [DrainTask.loopHead] := by
  exact ⟨rfl, rfl⟩

/-- C3 amended: `enqueueTranslation` is a no-op exactly for the empty
text; every non-empty text — whitespace-only included — is appended to the
tail of the buffer, and the call appends no translation itself. -/
theorem enqueue_appends_nonempty (s : Cfg) (text : String) :
    (text = "" → enqueueTranslation text s = s) ∧
      (text ≠ "" →
        (enqueueTranslation text s).queue = s.queue ++ [text] ∧
          (enqueueTranslation text s).translations = s.translations) := by
  constructor
  · intro ht
    simp [enqueueTranslation, ht]
  · intro ht
    by_cases hp : s.processing = true <;>
      simp [enqueueTranslation, processQueueStart, ht, hp]

/-- Witness for `enqueue_appends_nonempty`: empty text leaves the initial
state unchanged and `"hola"` is appended at the tail. -/
theorem enqueue_appends_nonempty_witness :
    enqueueTranslation "" initCfg = initCfg ∧
      (enqueueTranslation "hola" initCfg).queue = ["hola"] := by
  refine ⟨(enqueue_appends_nonempty initCfg "").1 rfl, ?_⟩
  have h := (enqueue_appends_nonempty initCfg "hola").2 (by decide)
  simpa using h.1

/-- C10: `parseVTT` filters by line shape only — any line whose trimmed
content is purely numeric, or starts with `WEBVTT` or `NOTE`, is discarded
even when it is spoken text; on the trap document the spoken lines `42` and
`NOTE everything is fine.` contribute nothing. -/
theorem parseVTT_shape_only_filtering :
    (∀ vtt : String,
        parseVTT vtt =
          String.intercalate " "
            (((jsSplitChar '\n' vtt).map jsTrim).filter keepsLine)) ∧
      (∀ t : String,
        (vttNumeric t || jsStartsWith t "WEBVTT" || jsStartsWith t "NOTE")
            = true →
          keepsLine t = false) ∧
      parseVTT vttTrapExample = "Indeed." := by
  refine ⟨?_, ?_, rfl⟩
  · intro vtt
    rw [parseVTT, parseVTTGo_eq_filter]
  · intro t h
    simp only [Bool.or_eq_true] at h
    rcases h with (hn | hw) | hnote
    · simp [keepsLine, hn]
    · simp [keepsLine, hw]
    · simp [keepsLine, hnote]

/-- Witness for `parseVTT_shape_only_filtering`: the purely numeric spoken
line `42` is dropped. -/
theorem parseVTT_shape_only_filtering_witness : keepsLine "42" = false :=
  parseVTT_shape_only_filtering.2.1 "42" (by decide)
